import Mathlib

/-!
# Verification of the scalpl path-resolution engine

A shallow embedding of `src/scalpl/scalpl.py` (the `Cut` wrapper over nested
dictionaries and lists), together with theorems settling the specification
claims about its path parser and tree navigator.

Strings are modelled as `List Char` (`Str`); Python's `str.split` on a
single-character separator is `pySplitCh`; Python's `int(...)` on strings is
`pyInt`.  Python values are the inductive `PyVal`; subscript access,
assignment, deletion and `pop` are modelled by `getItem`, `setItem`,
`popAccess`; exceptions become the inductive `PyErr`, classified by `PyErr.cls`
into Python exception classes so that `try/except` clauses can be mirrored.
Mutating operations return the updated tree explicitly where a claim observes
the post-state (`Cut_setitem`, `Cut_setdefault`); other operations are
modelled by their returned value / raised error only.
-/

set_option autoImplicit false

/-- Strings of the embedded program. -/
abbrev Str := List Char

/-- Python `s.split(sep)` for a single-character separator `sep`:
splits on every occurrence, keeping empty pieces (so the result is never
empty: `"".split(".") == [""]`). -/
def pySplitCh (sep : Char) : Str → List Str
  | [] => [[]]
  | c :: rest =>
    let r := pySplitCh sep rest
    if c = sep then [] :: r
    else
      match r with
      | [] => [[c]]
      | g :: gs => (c :: g) :: gs

/-- Auxiliary for `pyInt`: decimal digits, allowing a single `_` between two
digits (Python 3 accepts `1_0`), accumulating the value. -/
def pyDigitsAux (acc : Nat) : List Char → Option Nat
  | [] => some acc
  | '_' :: c :: cs =>
    if c.isDigit then pyDigitsAux (acc * 10 + (c.toNat - 48)) cs else none
  | c :: cs =>
    if c.isDigit then pyDigitsAux (acc * 10 + (c.toNat - 48)) cs else none

/-- A non-empty run of decimal digits (with Python's underscore grouping). -/
def pyDigits : List Char → Option Nat
  | [] => none
  | c :: cs => if c.isDigit then pyDigitsAux (c.toNat - 48) cs else none

/-- Strip leading and trailing whitespace (Python `str.strip()` as applied by
`int`). -/
def pyStrip (s : Str) : Str :=
  ((s.dropWhile Char.isWhitespace).reverse.dropWhile Char.isWhitespace).reverse

/-- Python `int(s)` on a string: optional surrounding whitespace, optional
sign, then a non-empty digit run; `none` models `ValueError`. -/
def pyInt (s : Str) : Option Int :=
  match pyStrip s with
  | '-' :: rest => (pyDigits rest).map (fun n => -(n : Int))
  | '+' :: rest => (pyDigits rest).map (fun n => (n : Int))
  | rest => (pyDigits rest).map (fun n => (n : Int))

/-- `initLast l = some (init, last)` splits a non-empty list into its leading
part and last element (Python's `*init, last = l`). -/
def initLast {α : Type} : List α → Option (List α × α)
  | [] => none
  | [a] => some ([], a)
  | a :: b :: rest =>
    match initLast (b :: rest) with
    | none => none
    | some (xs, l) => some (a :: xs, l)

/-- A subscript used by the program: Python strings or integers
(`List[Union[str, int]]` in the source). -/
inductive PKey where
  | str (s : Str)
  | int (i : Int)
  deriving DecidableEq, Repr

/-- A Python tree value: dictionaries (association lists of subscript keys to
values — keys are strings as parsed, but integer keys can be inserted by the
code, so `PKey` keys are allowed), lists, and scalars. -/
inductive PyVal where
  | dict (entries : List (PKey × PyVal))
  | list (elems : List PyVal)
  | int (i : Int)
  | str (s : Str)
  | bool (b : Bool)
  | none
  deriving Repr

/-- Python exception classes that the source code catches or raises. -/
inductive PyClass where
  | keyError
  | indexError
  | typeError
  | valueError
  | attributeError
  deriving DecidableEq, Repr

/-- An exception value of the embedded program.  `…Raw` constructors are
exceptions raised by Python builtins (carrying no path attribution); the
`wrapped…` constructors are the errors built by `key_error`, `index_error`,
`type_error` (and the `TypeError` re-raised in `traverse`), carrying the
offending key and the original path.  `missingBrackets`,
`indexMustBeInteger` are the parser's `ValueError`s; `intValueError` is the
raw `ValueError` of a failing `int(...)` call. -/
inductive PyErr where
  | keyErrorRaw (k : PKey)
  | indexErrorRaw
  | typeErrorRaw
  | attributeErrorRaw
  | intValueError (s : Str)
  | wrappedKey (k : PKey) (path : Str)
  | wrappedIndex (k : PKey) (path : Str)
  | wrappedType (k : PKey) (path : Str)
  | missingBrackets (key : Str)
  | indexMustBeInteger (index : Str) (key : Str)
  deriving DecidableEq, Repr

/-- The Python class of each modelled exception. -/
def PyErr.cls : PyErr → PyClass
  | .keyErrorRaw _ => .keyError
  | .indexErrorRaw => .indexError
  | .typeErrorRaw => .typeError
  | .attributeErrorRaw => .attributeError
  | .intValueError _ => .valueError
  | .wrappedKey _ _ => .keyError
  | .wrappedIndex _ _ => .indexError
  | .wrappedType _ _ => .typeError
  | .missingBrackets _ => .valueError
  | .indexMustBeInteger _ _ => .valueError

/-- First-match lookup in a dictionary (Python `d[k]` read). -/
def lookupD : List (PKey × PyVal) → PKey → Option PyVal
  | [], _ => Option.none
  | (k0, v0) :: rest, k => if k0 = k then some v0 else lookupD rest k

/-- Dictionary assignment `d[k] = v`: replace the first entry with key `k`,
or append a new entry. -/
def setD : List (PKey × PyVal) → PKey → PyVal → List (PKey × PyVal)
  | [], k, v => [(k, v)]
  | (k0, v0) :: rest, k, v =>
    if k0 = k then (k0, v) :: rest else (k0, v0) :: setD rest k v

/-- Python's normalisation of a sequence index: a negative index counts from
the end. -/
def pyNorm (n : Nat) (i : Int) : Int := if i < 0 then i + n else i

/-- Python list read `xs[i]` with negative-index wrap-around:
valid exactly when `-len ≤ i < len`. -/
def pyListGet? (xs : List PyVal) (i : Int) : Option PyVal :=
  if 0 ≤ pyNorm xs.length i then xs[(pyNorm xs.length i).toNat]?
  else Option.none

/-- Python list assignment `xs[i] = v` (same validity as `pyListGet?`,
never changes the length). -/
def pyListSet? (xs : List PyVal) (i : Int) (v : PyVal) : Option (List PyVal) :=
  if 0 ≤ pyNorm xs.length i ∧ (pyNorm xs.length i).toNat < xs.length then
    some (xs.set (pyNorm xs.length i).toNat v)
  else Option.none

/-- Python string read `s[i]` with negative-index wrap-around (a string is
index-addressable, like a list). -/
def pyStrGet? (s : Str) (i : Int) : Option Char :=
  if 0 ≤ pyNorm s.length i then s[(pyNorm s.length i).toNat]?
  else Option.none

/-- Python subscript read `v[k]`: dict lookup (`KeyError` when absent —
including an integer subscript on a dictionary), list indexing (`IndexError`
out of range, `TypeError` for a string subscript), string indexing (a string
leaf is index-addressable: an in-range integer subscript yields the
one-character string, out of range raises `IndexError`, a string subscript
raises `TypeError`), and `TypeError` on the other scalars. -/
def getItem : PyVal → PKey → Except PyErr PyVal
  | .dict es, k =>
    match lookupD es k with
    | some v => .ok v
    | Option.none => .error (.keyErrorRaw k)
  | .list xs, .int i =>
    match pyListGet? xs i with
    | some v => .ok v
    | Option.none => .error .indexErrorRaw
  | .list _, .str _ => .error .typeErrorRaw
  | .str s, .int i =>
    match pyStrGet? s i with
    | some c => .ok (.str [c])
    | Option.none => .error .indexErrorRaw
  | .str _, .str _ => .error .typeErrorRaw
  | .int _, _ => .error .typeErrorRaw
  | .bool _, _ => .error .typeErrorRaw
  | .none, _ => .error .typeErrorRaw

/-- Python subscript assignment `v[k] = x`. -/
def setItem : PyVal → PKey → PyVal → Except PyErr PyVal
  | .dict es, k, x => .ok (.dict (setD es k x))
  | .list xs, .int i, x =>
    match pyListSet? xs i x with
    | some xs' => .ok (.list xs')
    | Option.none => .error .indexErrorRaw
  | .list _, .str _, _ => .error .typeErrorRaw
  | .int _, _, _ => .error .typeErrorRaw
  | .str _, _, _ => .error .typeErrorRaw
  | .bool _, _, _ => .error .typeErrorRaw
  | .none, _, _ => .error .typeErrorRaw

/-- The value returned by Python `parent.pop(k)` (the removal itself is not
observed by any claim, so only the result/raised error is modelled):
`dict.pop` raises `KeyError` when absent, `list.pop` raises `IndexError` out
of range and `TypeError` on a string argument, and a scalar has no `pop`
attribute (`AttributeError`). -/
def popAccess : PyVal → PKey → Except PyErr PyVal
  | .dict es, k =>
    match lookupD es k with
    | some v => .ok v
    | Option.none => .error (.keyErrorRaw k)
  | .list xs, .int i =>
    match pyListGet? xs i with
    | some v => .ok v
    | Option.none => .error .indexErrorRaw
  | .list _, .str _ => .error .typeErrorRaw
  | .int _, _ => .error .attributeErrorRaw
  | .str _, _ => .error .attributeErrorRaw
  | .bool _, _ => .error .attributeErrorRaw
  | .none, _ => .error .attributeErrorRaw

/-- The outcome of Python `del parent[k]`: a dictionary raises `KeyError`
when the key is absent, a list raises `IndexError` out of range and
`TypeError` for a string subscript, and every scalar — strings included,
being immutable — raises `TypeError`. -/
def delAccess : PyVal → PKey → Except PyErr Unit
  | .dict es, k =>
    match lookupD es k with
    | some _ => .ok ()
    | Option.none => .error (.keyErrorRaw k)
  | .list xs, .int i =>
    match pyListGet? xs i with
    | some _ => .ok ()
    | Option.none => .error .indexErrorRaw
  | .list _, .str _ => .error .typeErrorRaw
  | .str _, _ => .error .typeErrorRaw
  | .int _, _ => .error .typeErrorRaw
  | .bool _, _ => .error .typeErrorRaw
  | .none, _ => .error .typeErrorRaw

/-! ## The path parser: `split_indexes` and `split_path` -/

/-- The loop body of `split_indexes`: for each piece produced by splitting a
segment on `'['`, drop the trailing character (`str_index[:-1]`) and parse
the remainder with `int`.  On the first failing piece the source inspects
that piece's body: non-empty and without `']'` means the author typed a
non-integer index (`index_must_be_integer_error`), otherwise brackets are
missing/unbalanced (`missing_brackets_error`). -/
def siLoop (seg : Str) : List Str → Except PyErr (List PKey)
  | [] => .ok []
  | p :: rest =>
    match pyInt p.dropLast with
    | some i =>
      match siLoop seg rest with
      | .ok l => .ok (.int i :: l)
      | .error e => .error e
    | Option.none =>
      if p.dropLast ≠ [] ∧ ']' ∉ p.dropLast then
        .error (.indexMustBeInteger p.dropLast seg)
      else
        .error (.missingBrackets seg)

/-- `split_indexes` from the source: split a path segment on `'['`; the first
piece is the key, the remaining pieces must each be an integer followed by
`']'`. -/
def split_indexes (seg : Str) : Except PyErr (List PKey) :=
  match pySplitCh '[' seg with
  | [] => .ok []
  | key :: pieces =>
    match pieces with
    | [] => .ok [.str key]
    | _ =>
      match siLoop seg pieces with
      | .ok l => .ok (.str key :: l)
      | .error e => .error e

/-- The loop of `split_path`: concatenate `split_indexes` of every
separator-delimited segment, aborting on the first parse error. -/
def spLoop : List Str → Except PyErr (List PKey)
  | [] => .ok []
  | seg :: rest =>
    match split_indexes seg with
    | .error e => .error e
    | .ok a =>
      match spLoop rest with
      | .error e => .error e
      | .ok b => .ok (a ++ b)

/-- `split_path` from the source: split the path on the separator and expand
each segment with `split_indexes`. -/
def split_path (path : Str) (sep : Char) : Except PyErr (List PKey) :=
  spLoop (pySplitCh sep path)

example : "a.b".toList = ['a', '.', 'b'] := rfl
example : pySplitCh '.' "a.b".toList = ["a".toList, "b".toList] := rfl
example : pySplitCh '.' "".toList = [[]] := rfl
example : pyInt "-1".toList = some (-1) := rfl
example : pyInt "x".toList = Option.none := rfl
example : pyInt "".toList = Option.none := rfl
example : split_path "a[0][1]".toList '.' =
    .ok [.str "a".toList, .int 0, .int 1] := rfl
example : split_path "a[-1]".toList '.' =
    .ok [.str "a".toList, .int (-1)] := rfl
example : split_path "a[x]".toList '.' =
    .error (.indexMustBeInteger "x".toList "a[x]".toList) := rfl
example : split_path "a[0".toList '.' =
    .error (.missingBrackets "a[0".toList) := rfl
example : split_path "a[]".toList '.' =
    .error (.missingBrackets "a[]".toList) := rfl
example : split_path "pokemon[5].level".toList '.' =
    .ok [.str "pokemon".toList, .int 5, .str "level".toList] := rfl

/-! ## The tree navigator -/

/-- `traverse` from the source (used by `__getitem__` / `__setitem__`): walk
the parsed keys from the root; a `TypeError` at any step is re-raised naming
the current key and the original path, while `KeyError` / `IndexError`
propagate unwrapped. -/
def traverse (value : PyVal) (keys : List PKey) (path : Str) :
    Except PyErr PyVal :=
  match keys with
  | [] => .ok value
  | k :: rest =>
    match getItem value k with
    | .ok v => traverse v rest path
    | .error e =>
      .error (if e.cls = .typeError then .wrappedType k path else e)

/-- `Cut.__getitem__`: parse the path, `traverse` all keys but the last, then
read the final key, wrapping a final `KeyError` / `IndexError` with the key
and the full path (`key_error` / `index_error`). -/
def Cut_getitem (root : PyVal) (path : Str) (sep : Char) : Except PyErr PyVal :=
  match split_path path sep with
  | .error e => .error e
  | .ok l =>
    match initLast l with
    | Option.none => .error .typeErrorRaw
    | some (keys, last) =>
      match traverse root keys path with
      | .error e => .error e
      | .ok item =>
        match getItem item last with
        | .ok v => .ok v
        | .error e =>
          .error (match e.cls with
            | .keyError => .wrappedKey last path
            | .indexError => .wrappedIndex last path
            | _ => e)

/-- The walk of `Cut.__setitem__`, with the functional write-back that models
assignment through the reference returned by `traverse`: identical error
behaviour to `traverse`, then the final assignment wraps only `IndexError`. -/
def traverseSet (value : PyVal) (keys : List PKey) (last : PKey) (x : PyVal)
    (path : Str) : Except PyErr PyVal :=
  match keys with
  | [] =>
    match setItem value last x with
    | .ok v' => .ok v'
    | .error e =>
      .error (if e.cls = .indexError then .wrappedIndex last path else e)
  | k :: rest =>
    match getItem value k with
    | .error e =>
      .error (if e.cls = .typeError then .wrappedType k path else e)
    | .ok child =>
      match traverseSet child rest last x path with
      | .error e => .error e
      | .ok child' =>
        match setItem value k child' with
        | .ok v' => .ok v'
        | .error e => .error e

/-- `Cut.__setitem__`: parse, walk, assign; returns the updated root. -/
def Cut_setitem (root : PyVal) (path : Str) (sep : Char) (x : PyVal) :
    Except PyErr PyVal :=
  match split_path path sep with
  | .error e => .error e
  | .ok l =>
    match initLast l with
    | Option.none => .error .typeErrorRaw
    | some (keys, last) => traverseSet root keys last x path

/-- `Cut.get`: delegate to `__getitem__`; on `KeyError` / `IndexError` return
the default unless the default is `None` (the source tests
`default is not None`), otherwise re-raise. -/
def Cut_get (root : PyVal) (path : Str) (sep : Char) (default : PyVal) :
    Except PyErr PyVal :=
  match Cut_getitem root path sep with
  | .ok v => .ok v
  | .error e =>
    match e.cls with
    | .keyError =>
      match default with
      | .none => .error e
      | _ => .ok default
    | .indexError =>
      match default with
      | .none => .error e
      | _ => .ok default
    | _ => .error e

/-- The inner index loop of `_traverse_list` (the pieces before the last):
each piece's body is parsed with `int` (a failure is an uncaught raw
`ValueError`), then the current node is subscripted; only `IndexError` is
wrapped (naming the current index and the full path).  The continuation `k`
receives the node reached, and the updated node is written back on the way
out, modelling mutation through Python references. -/
def descendW {α : Type} (p : PyVal) (pieces : List Str) (path : Str)
    (k : PyVal → Except PyErr (α × PyVal)) : Except PyErr (α × PyVal) :=
  match pieces with
  | [] => k p
  | s :: rest =>
    match pyInt s.dropLast with
    | Option.none => .error (.intValueError s.dropLast)
    | some i =>
      match getItem p (.int i) with
      | .error e =>
        .error (if e.cls = .indexError then .wrappedIndex (.int i) path else e)
      | .ok child =>
        match descendW child rest path k with
        | .error e => .error e
        | .ok (a, child') =>
          match setItem p (.int i) child' with
          | .ok p' => .ok (a, p')
          | .error e => .error e

/-- `_traverse_list` from the source, in continuation style: split the
segment on `'['`; without brackets, hand `(parent, key)` to the caller
unchanged.  With brackets: read `parent[key]` (wrapping `KeyError` with
`key_error` and `TypeError` with `type_error`), walk the inner indexes,
parse the last index with `int` (a failure raised as `index_error` naming
the body string), and hand the deep node plus the final index to the
caller; the caller's update of its alias is written back. -/
def traverse_listW {α : Type} (parent : PyVal) (seg : Str) (path : Str)
    (k : PyVal → PKey → Except PyErr (α × PyVal)) : Except PyErr (α × PyVal) :=
  match pySplitCh '[' seg with
  | [] => k parent (.str seg)
  | key :: pieces =>
    match initLast pieces with
    | Option.none => k parent (.str key)
    | some (inner, lastPiece) =>
      match getItem parent (.str key) with
      | .error e =>
        .error (if e.cls = .keyError then .wrappedKey (.str key) path
          else if e.cls = .typeError then .wrappedType (.str key) path
          else e)
      | .ok p1 =>
        match descendW p1 inner path (fun pDeep =>
          match pyInt lastPiece.dropLast with
          | Option.none => .error (.wrappedIndex (.str lastPiece.dropLast) path)
          | some li => k pDeep (.int li)) with
        | .error e => .error e
        | .ok (a, p1') =>
          match setItem parent (.str key) p1' with
          | .ok parent' => .ok (a, parent')
          | .error e => .error e

/-- `_traverse_list` as used read-only by `Cut._traverse`: the returned
`(parent, key)` pair. -/
def _traverse_list (parent : PyVal) (seg : Str) (path : Str) :
    Except PyErr (PyVal × PKey) :=
  match traverse_listW parent seg path (fun p l => .ok ((p, l), p)) with
  | .ok (a, _) => .ok a
  | .error e => .error e

/-- The intermediate-segment loop of `Cut._traverse`: for each parent
segment, run `_traverse_list` and subscript the result; `KeyError`,
`IndexError` and `TypeError` raised anywhere in an iteration are wrapped
naming the current sub-key (the raw segment if `_traverse_list` itself
raised, the returned key otherwise — a `TypeError` is wrapped by `key_error`,
so it surfaces with `KeyError` class). -/
def traverseLoop (parent : PyVal) (segs : List Str) (path : Str) :
    Except PyErr PyVal :=
  match segs with
  | [] => .ok parent
  | seg :: rest =>
    match _traverse_list parent seg path with
    | .error e =>
      .error (match e.cls with
        | .keyError => .wrappedKey (.str seg) path
        | .indexError => .wrappedIndex (.str seg) path
        | .typeError => .wrappedKey (.str seg) path
        | _ => e)
    | .ok (p1, k1) =>
      match getItem p1 k1 with
      | .error e =>
        .error (match e.cls with
          | .keyError => .wrappedKey k1 path
          | .indexError => .wrappedIndex k1 path
          | .typeError => .wrappedKey k1 path
          | _ => e)
      | .ok p2 => traverseLoop p2 rest path

/-- `Cut._traverse`: split the raw path on the separator, walk all but the
last segment with the wrapped loop, then apply `_traverse_list` to the last
segment (outside the wrapping `try`). -/
def Cut_traverse (root : PyVal) (path : Str) (sep : Char) :
    Except PyErr (PyVal × PKey) :=
  match initLast (pySplitCh sep path) with
  | Option.none => .error .typeErrorRaw
  | some (parentKeys, last) =>
    match traverseLoop root parentKeys path with
    | .error e => .error e
    | .ok p => _traverse_list p last path

/-- `Cut.__contains__`: resolve the parent (errors propagate), then a final
read failing with `IndexError` / `KeyError` means `False`. -/
def Cut_contains (root : PyVal) (path : Str) (sep : Char) :
    Except PyErr Bool :=
  match Cut_traverse root path sep with
  | .error e => .error e
  | .ok (p, l) =>
    match getItem p l with
    | .ok _ => .ok true
    | .error e =>
      match e.cls with
      | .keyError => .ok false
      | .indexError => .ok false
      | _ => .error e

/-- `Cut.__delitem__` (the deletion's post-state is observed by no claim, so
only the outcome `delAccess` of `del parent[last]` is modelled): a final
`KeyError` / `IndexError` is wrapped with the key and path, anything else —
e.g. the `TypeError` of deleting from a scalar — propagates. -/
def Cut_delitem (root : PyVal) (path : Str) (sep : Char) : Except PyErr Unit :=
  match Cut_traverse root path sep with
  | .error e => .error e
  | .ok (p, l) =>
    match delAccess p l with
    | .ok _ => .ok ()
    | .error e =>
      .error (match e.cls with
        | .keyError => .wrappedKey l path
        | .indexError => .wrappedIndex l path
        | _ => e)

/-- `Cut.pop`: resolve the parent — a `KeyError` / `IndexError` there returns
the default when it is not `None`, else re-raises; then `parent.pop(last)`,
whose `KeyError` / `IndexError` again returns a non-`None` default, else is
wrapped with the key and path. -/
def Cut_pop (root : PyVal) (path : Str) (sep : Char) (default : PyVal) :
    Except PyErr PyVal :=
  match Cut_traverse root path sep with
  | .error e =>
    match e.cls with
    | .keyError =>
      match default with
      | .none => .error e
      | _ => .ok default
    | .indexError =>
      match default with
      | .none => .error e
      | _ => .ok default
    | _ => .error e
  | .ok (p, l) =>
    match popAccess p l with
    | .ok v => .ok v
    | .error e =>
      match e.cls with
      | .indexError =>
        match default with
        | .none => .error (.wrappedIndex l path)
        | _ => .ok default
      | .keyError =>
        match default with
        | .none => .error (.wrappedKey l path)
        | _ => .ok default
      | _ => .error e

/-- The walk of `Cut.setdefault`, returning `(result, updated parent)`.  Each
intermediate raw segment goes through `_traverse_list` (aliasing modelled by
the continuation) and is then subscripted: a `KeyError` creates an empty
dictionary at that position and descends into it, an `IndexError` is wrapped
(`index_error`), anything else propagates.  The final segment again goes
through `_traverse_list`; a final `KeyError` stores the default and returns
it, a final `IndexError` is wrapped. -/
def setdefaultLoop (parent : PyVal) (segs : List Str) (last : Str)
    (default : PyVal) (path : Str) : Except PyErr (PyVal × PyVal) :=
  match segs with
  | [] =>
    traverse_listW parent last path (fun p l =>
      match getItem p l with
      | .ok v => .ok (v, p)
      | .error e =>
        match e.cls with
        | .keyError =>
          match setItem p l default with
          | .ok p' => .ok (default, p')
          | .error e' => .error e'
        | .indexError => .error (.wrappedIndex l path)
        | _ => .error e)
  | seg :: rest =>
    traverse_listW parent seg path (fun p l =>
      match getItem p l with
      | .ok child =>
        match setdefaultLoop child rest last default path with
        | .error e => .error e
        | .ok (res, child') =>
          match setItem p l child' with
          | .ok p' => .ok (res, p')
          | .error e' => .error e'
      | .error e =>
        match e.cls with
        | .keyError =>
          match setdefaultLoop (.dict []) rest last default path with
          | .error e' => .error e'
          | .ok (res, child') =>
            match setItem p l child' with
            | .ok p' => .ok (res, p')
            | .error e' => .error e'
        | .indexError => .error (.wrappedIndex l path)
        | _ => .error e)

/-- `Cut.setdefault`: split the raw path on the separator and run the
creating walk; returns `(result, updated root)`. -/
def Cut_setdefault (root : PyVal) (path : Str) (sep : Char)
    (default : PyVal) : Except PyErr (PyVal × PyVal) :=
  match initLast (pySplitCh sep path) with
  | Option.none => .error .typeErrorRaw
  | some (parentKeys, last) => setdefaultLoop root parentKeys last default path

/-! ## Spec-side definitions (for refinement comparisons) -/

/-- The parser failure policy exactly as the specification words it: scan the
bracket-split pieces of a segment for the first one whose integer parse
fails; if that piece's body (the piece with its trailing character stripped)
is non-empty and contains no `']'`, the failure is `IndexMustBeInteger`,
otherwise `MissingBrackets`; when every piece parses, the segment yields its
key step followed by one index step per piece.  Compared against
`split_indexes` (the source's parser). -/
def split_indexes_spec (seg : Str) : Except PyErr (List PKey) :=
  match pySplitCh '[' seg with
  | [] => .ok []
  | key :: pieces =>
    match pieces with
    | [] => .ok [.str key]
    | _ =>
      match pieces.find? (fun p => (pyInt p.dropLast).isNone) with
      | some p =>
        if p.dropLast ≠ [] ∧ ']' ∉ p.dropLast then
          .error (.indexMustBeInteger p.dropLast seg)
        else .error (.missingBrackets seg)
      | Option.none =>
        .ok (.str key ::
          pieces.map (fun p => PKey.int ((pyInt p.dropLast).getD 0)))

/-- The observable outcome of one access step, in the spec's vocabulary. -/
inductive StepOutcome where
  | value (v : PyVal)
  | missingKey
  | indexOutOfRange
  | typeMismatch
  deriving Repr

/-- Classify a subscript attempt by the spec's failure taxonomy. -/
def outcomeOf : Except PyErr PyVal → StepOutcome
  | .ok v => .value v
  | .error e =>
    match e.cls with
    | .keyError => .missingKey
    | .indexError => .indexOutOfRange
    | _ => .typeMismatch

/-- The amended step application rule, worded from the spec: a `Key` step
against a keyed container looks the name up (`MissingKey` when absent); an
`Index` step against a keyed container is also a dictionary lookup of the
integer key (`MissingKey` when absent — not `TypeMismatch` as the original
claim stated); an `Index` step against an ordered container returns the
element when `-len ≤ i < len` (Python's negative wrap) and `IndexOutOfRange`
otherwise; a string leaf is itself index-addressable, so an `Index` step
against it returns the one-character string under the same range rule; a
`Key` step against an ordered container or a string, and any step against
another scalar, is a `TypeMismatch`. -/
def stepRule (v : PyVal) (k : PKey) : StepOutcome :=
  match v, k with
  | .dict es, k =>
    match lookupD es k with
    | some w => .value w
    | Option.none => .missingKey
  | .list xs, .int i =>
    if -(xs.length : Int) ≤ i ∧ i < (xs.length : Int) then
      match xs[(pyNorm xs.length i).toNat]? with
      | some w => .value w
      | Option.none => .indexOutOfRange
    else .indexOutOfRange
  | .list _, .str _ => .typeMismatch
  | .str s, .int i =>
    if -(s.length : Int) ≤ i ∧ i < (s.length : Int) then
      match s[(pyNorm s.length i).toNat]? with
      | some c => .value (.str [c])
      | Option.none => .indexOutOfRange
    else .indexOutOfRange
  | .str _, .str _ => .typeMismatch
  | .int _, _ => .typeMismatch
  | .bool _, _ => .typeMismatch
  | .none, _ => .typeMismatch

/-! ## Helper lemmas -/

theorem pySplitCh_ne_nil (sep : Char) (cs : Str) : pySplitCh sep cs ≠ [] := by
  cases cs with
  | nil => simp [pySplitCh]
  | cons c rest =>
    simp only [pySplitCh]
    split
    · simp
    · split <;> simp

theorem mem_of_mem_pySplitCh (sep : Char) (c : Char) :
    ∀ (cs g : Str), g ∈ pySplitCh sep cs → c ∈ g → c ∈ cs := by
  intro cs
  induction cs with
  | nil =>
    intro g hg hc
    simp [pySplitCh] at hg
    subst hg
    simp at hc
  | cons a rest ih =>
    intro g hg hc
    simp only [pySplitCh] at hg
    split at hg
    · rcases List.mem_cons.mp hg with h | h
      · subst h; simp at hc
      · exact List.mem_cons_of_mem _ (ih g h hc)
    · rcases hr : pySplitCh sep rest with _ | ⟨g0, gs⟩
      · exact absurd hr (pySplitCh_ne_nil sep rest)
      · rw [hr] at hg
        rcases List.mem_cons.mp hg with h | h
        · subst h
          rcases List.mem_cons.mp hc with h' | h'
          · exact h' ▸ List.mem_cons_self _ _
          · exact List.mem_cons_of_mem _
              (ih g0 (hr ▸ List.mem_cons_self g0 gs) h')
        · exact List.mem_cons_of_mem _
            (ih g (hr ▸ List.mem_cons_of_mem g0 h) hc)

theorem pySplitCh_of_not_mem {sep : Char} {cs : Str} (h : sep ∉ cs) :
    pySplitCh sep cs = [cs] := by
  induction cs with
  | nil => rfl
  | cons c rest ih =>
    simp only [pySplitCh]
    rw [if_neg (by simp at h; exact fun hc => h.1 hc.symm)]
    rw [ih (by simp at h; exact h.2)]

theorem split_indexes_no_bracket {seg : Str} (h : '[' ∉ seg) :
    split_indexes seg = .ok [.str seg] := by
  unfold split_indexes
  rw [pySplitCh_of_not_mem h]

theorem getItem_error_cls {v : PyVal} {k : PKey} {e : PyErr}
    (h : getItem v k = .error e) :
    e.cls = .keyError ∨ e.cls = .indexError ∨ e.cls = .typeError := by
  cases v <;> cases k <;> simp only [getItem] at h <;>
    (try split at h) <;> (try simp at h) <;> (try subst h) <;>
    simp [PyErr.cls]

theorem setItem_error_cls {v : PyVal} {k : PKey} {x : PyVal} {e : PyErr}
    (h : setItem v k x = .error e) :
    e.cls = .indexError ∨ e.cls = .typeError := by
  cases v <;> cases k <;> simp only [setItem] at h <;>
    (try split at h) <;> (try simp at h) <;> (try subst h) <;>
    simp [PyErr.cls]

theorem siLoop_ok_isSome {seg : Str} {pieces : List Str} {l : List PKey}
    (h : siLoop seg pieces = .ok l) :
    ∀ p ∈ pieces, (pyInt p.dropLast).isSome := by
  induction pieces generalizing l with
  | nil => intro p hp; simp at hp
  | cons p rest ih =>
    intro q hq
    simp only [siLoop] at h
    split at h
    · rename_i i hi
      rcases List.mem_cons.mp hq with rfl | hq'
      · simp [hi]
      · cases hr : siLoop seg rest with
        | ok l' => exact ih hr q hq'
        | error e => rw [hr] at h; simp at h
    · split at h <;> simp at h

theorem siLoop_error_shape {seg : Str} {pieces : List Str} {e : PyErr}
    (h : siLoop seg pieces = .error e) :
    (∃ b, e = .indexMustBeInteger b seg) ∨ e = .missingBrackets seg := by
  induction pieces with
  | nil => simp [siLoop] at h
  | cons p rest ih =>
    simp only [siLoop] at h
    split at h
    · cases hr : siLoop seg rest with
      | ok l' => rw [hr] at h; simp at h
      | error e' =>
        rw [hr] at h
        injection h with h
        exact ih (h ▸ hr)
    · split at h
      · exact Or.inl ⟨p.dropLast, by injection h with h; exact h.symm⟩
      · exact Or.inr (by injection h with h; exact h.symm)

theorem split_indexes_error_cls {seg : Str} {e : PyErr}
    (h : split_indexes seg = .error e) : e.cls = .valueError := by
  unfold split_indexes at h
  split at h
  · simp at h
  · split at h
    · simp at h
    · split at h
      · simp at h
      · injection h with h
        subst h
        rename_i hl
        rcases siLoop_error_shape hl with ⟨b, rfl⟩ | rfl <;> rfl

theorem split_indexes_ok_tail {seg : Str} {l : List PKey} {key : Str}
    {pieces : List Str} (hs : pySplitCh '[' seg = key :: pieces)
    (h : split_indexes seg = .ok l) :
    ∀ p ∈ pieces, (pyInt p.dropLast).isSome := by
  unfold split_indexes at h
  rw [hs] at h
  cases pieces with
  | nil => intro p hp; simp at hp
  | cons p ps =>
    simp only at h
    cases hl : siLoop seg (p :: ps) with
    | ok l' => exact siLoop_ok_isSome hl
    | error e => rw [hl] at h; simp at h

theorem spLoop_error_cls {segs : List Str} {e : PyErr}
    (h : spLoop segs = .error e) : e.cls = .valueError := by
  induction segs with
  | nil => simp [spLoop] at h
  | cons seg rest ih =>
    simp only [spLoop] at h
    split at h
    · rename_i e' hi
      injection h with h
      exact h ▸ split_indexes_error_cls hi
    · split at h
      · rename_i e' hr
        injection h with h
        exact ih (h ▸ hr)
      · simp at h

theorem split_path_error_cls {path : Str} {sep : Char} {e : PyErr}
    (h : split_path path sep = .error e) : e.cls = .valueError :=
  spLoop_error_cls h

theorem initLast_eq_append {α : Type} :
    ∀ {l xs : List α} {a : α}, initLast l = some (xs, a) → l = xs ++ [a] := by
  intro l
  induction l with
  | nil => intro xs a h; simp [initLast] at h
  | cons x rest ih =>
    intro xs a h
    cases rest with
    | nil =>
      simp only [initLast] at h
      injection h with h
      injection h with h1 h2
      subst h1
      subst h2
      simp
    | cons y r =>
      simp only [initLast] at h
      cases hr : initLast (y :: r) with
      | none => rw [hr] at h; simp at h
      | some p =>
        rw [hr] at h
        obtain ⟨xs0, a0⟩ := p
        simp only at h
        injection h with h
        injection h with h1 h2
        subst h1
        subst h2
        simp [ih hr]

theorem lookupD_setD_self (es : List (PKey × PyVal)) (k : PKey) (v : PyVal) :
    lookupD (setD es k v) k = some v := by
  induction es with
  | nil => simp [setD, lookupD]
  | cons kv rest ih =>
    obtain ⟨k0, v0⟩ := kv
    by_cases h : k0 = k
    · simp [setD, h, lookupD]
    · simp [setD, h, lookupD, ih]

theorem pyListSet?_get {xs xs' : List PyVal} {i : Int} {v : PyVal}
    (h : pyListSet? xs i v = some xs') : pyListGet? xs' i = some v := by
  unfold pyListSet? at h
  split at h
  · rename_i hc
    injection h with h
    subst h
    unfold pyListGet?
    rw [List.length_set, if_pos hc.1]
    exact List.getElem?_set_eq_of_lt v hc.2
  · simp at h

theorem getItem_setItem {v : PyVal} {k : PKey} {x v' : PyVal}
    (h : setItem v k x = .ok v') : getItem v' k = .ok x := by
  cases v with
  | dict es =>
    simp only [setItem] at h
    injection h with h
    subst h
    simp [getItem, lookupD_setD_self]
  | list xs =>
    cases k with
    | int i =>
      simp only [setItem] at h
      cases hs : pyListSet? xs i x with
      | none => rw [hs] at h; simp at h
      | some xs' =>
        rw [hs] at h
        injection h with h
        subst h
        simp [getItem, pyListSet?_get hs]
    | str s => simp [setItem] at h
  | int i => simp [setItem] at h
  | str s => simp [setItem] at h
  | bool b => simp [setItem] at h
  | none => simp [setItem] at h

theorem traverse_nil (v : PyVal) (path : Str) : traverse v [] path = .ok v := rfl

theorem traverse_cons (v : PyVal) (k : PKey) (rest : List PKey) (path : Str) :
    traverse v (k :: rest) path =
      match getItem v k with
      | .ok w => traverse w rest path
      | .error e =>
        .error (if e.cls = .typeError then .wrappedType k path else e) := rfl

theorem traverseSet_get {keys : List PKey} :
    ∀ {v : PyVal} {last : PKey} {x : PyVal} {path : Str} {v' : PyVal},
      traverseSet v keys last x path = .ok v' →
      ∃ item, traverse v' keys path = .ok item ∧ getItem item last = .ok x := by
  induction keys with
  | nil =>
    intro v last x path v' h
    simp only [traverseSet] at h
    cases hs : setItem v last x with
    | ok w =>
      rw [hs] at h
      injection h with h
      subst h
      exact ⟨_, rfl, getItem_setItem hs⟩
    | error e => rw [hs] at h; simp at h
  | cons k rest ih =>
    intro v last x path v' h
    simp only [traverseSet] at h
    split at h
    · simp at h
    · rename_i child hg
      split at h
      · simp at h
      · rename_i child' ht
        split at h
        · rename_i w hs
          injection h with h
          subst h
          obtain ⟨item, h1, h2⟩ := ih ht
          refine ⟨item, ?_, h2⟩
          rw [traverse_cons, getItem_setItem hs]
          exact h1
        · simp at h

theorem siLoop_find (seg : Str) (pieces : List Str) :
    siLoop seg pieces =
      match pieces.find? (fun p => (pyInt p.dropLast).isNone) with
      | some p =>
        if p.dropLast ≠ [] ∧ ']' ∉ p.dropLast then
          .error (.indexMustBeInteger p.dropLast seg)
        else .error (.missingBrackets seg)
      | Option.none =>
        .ok (pieces.map (fun p => PKey.int ((pyInt p.dropLast).getD 0))) := by
  induction pieces with
  | nil => rfl
  | cons p rest ih =>
    simp only [siLoop]
    cases hi : pyInt p.dropLast with
    | none => simp [List.find?_cons, hi]
    | some i =>
      rw [ih]
      cases hf : List.find? (fun p => (pyInt p.dropLast).isNone) rest with
      | none => simp [List.find?_cons, hi, hf]
      | some q =>
        simp [List.find?_cons, hi, hf]
        by_cases hq : ¬List.dropLast q = [] ∧ ']' ∉ List.dropLast q
        · rw [if_pos hq]
        · rw [if_neg hq]

theorem spLoop_no_bracket {segs : List Str} (h : ∀ seg ∈ segs, '[' ∉ seg) :
    spLoop segs = .ok (segs.map PKey.str) := by
  induction segs with
  | nil => rfl
  | cons seg rest ih =>
    simp only [spLoop,
      split_indexes_no_bracket (h seg (List.mem_cons_self _ _)),
      ih (fun s hs => h s (List.mem_cons_of_mem _ hs))]
    simp

theorem descendW_error_cls {α : Type} {pieces : List Str} :
    ∀ {p : PyVal} {path : Str} {k : PyVal → Except PyErr (α × PyVal)}
      {e : PyErr},
    (∀ s ∈ pieces, (pyInt s.dropLast).isSome) →
    (∀ pd e', k pd = .error e' →
      e'.cls ≠ .valueError ∧ e'.cls ≠ .attributeError) →
    descendW p pieces path k = .error e →
    e.cls ≠ .valueError ∧ e.cls ≠ .attributeError := by
  induction pieces with
  | nil =>
    intro p path k e hgood hk h
    exact hk p e h
  | cons s rest ih =>
    intro p path k e hgood hk h
    simp only [descendW] at h
    split at h
    · rename_i hi
      exact absurd (hgood s (List.mem_cons_self _ _)) (by simp [hi])
    · rename_i i hi
      split at h
      · rename_i e0 hg0
        injection h with h
        subst h
        by_cases hI : e0.cls = .indexError
        · rw [if_pos hI]
          exact ⟨by simp [PyErr.cls], by simp [PyErr.cls]⟩
        · rw [if_neg hI]
          rcases getItem_error_cls hg0 with h1 | h1 | h1 <;>
            simp [h1]
      · rename_i child hgc
        split at h
        · rename_i e1 hd
          injection h with h
          subst h
          exact ih (fun s hs => hgood s (List.mem_cons_of_mem _ hs)) hk hd
        · rename_i a child' hd
          split at h
          · simp at h
          · rename_i e2 hs2
            injection h with h
            subst h
            rcases setItem_error_cls hs2 with h1 | h1 <;> simp [h1]

theorem traverse_list_error_cls {parent : PyVal} {seg : Str} {path : Str}
    {e : PyErr}
    (hgood : ∀ p ∈ (pySplitCh '[' seg).tail, (pyInt p.dropLast).isSome)
    (h : _traverse_list parent seg path = .error e) :
    e.cls ≠ .valueError ∧ e.cls ≠ .attributeError := by
  unfold _traverse_list at h
  cases ht : traverse_listW parent seg path
      (fun p l => .ok ((p, l), p)) with
  | ok p => rw [ht] at h; simp at h
  | error e' =>
    rw [ht] at h
    injection h with h
    subst h
    unfold traverse_listW at ht
    split at ht
    · simp at ht
    · rename_i key pieces hsplit
      split at ht
      · simp at ht
      · rename_i inner lastPiece hil
        split at ht
        · rename_i e0 hg0
          injection ht with ht
          subst ht
          by_cases hK : e0.cls = .keyError
          · rw [if_pos hK]
            exact ⟨by simp [PyErr.cls], by simp [PyErr.cls]⟩
          · rw [if_neg hK]
            by_cases hT : e0.cls = .typeError
            · rw [if_pos hT]
              exact ⟨by simp [PyErr.cls], by simp [PyErr.cls]⟩
            · rw [if_neg hT]
              rcases getItem_error_cls hg0 with h1 | h1 | h1 <;>
                simp_all
        · rename_i p1 hg1
          split at ht
          · rename_i e1 hd
            injection ht with ht
            subst ht
            refine descendW_error_cls ?_ ?_ hd
            · intro s hs
              refine hgood s ?_
              rw [hsplit]
              have : pieces = inner ++ [lastPiece] := initLast_eq_append hil
              rw [List.tail_cons, this]
              exact List.mem_append_left _ hs
            · intro pd e' hke
              cases hpl : pyInt lastPiece.dropLast with
              | none =>
                rw [hpl] at hke
                injection hke with hke
                subst hke
                exact ⟨by simp [PyErr.cls], by simp [PyErr.cls]⟩
              | some li => rw [hpl] at hke; simp at hke
          · rename_i a p1' hd
            split at ht
            · simp at ht
            · rename_i e2 hs2
              injection ht with ht
              subst ht
              rcases setItem_error_cls hs2 with h1 | h1 <;> simp [h1]

theorem traverseLoop_error_wrapped {segs : List Str} :
    ∀ {parent : PyVal} {path : Str} {e : PyErr},
    (∀ seg ∈ segs, ∀ p ∈ (pySplitCh '[' seg).tail, (pyInt p.dropLast).isSome) →
    traverseLoop parent segs path = .error e →
    ∃ k, e = .wrappedKey k path ∨ e = .wrappedIndex k path := by
  induction segs with
  | nil => intro parent path e _ h; simp [traverseLoop] at h
  | cons seg rest ih =>
    intro parent path e hgood h
    simp only [traverseLoop] at h
    split at h
    · rename_i e0 h0
      injection h with h
      subst h
      obtain ⟨hV, hA⟩ :=
        traverse_list_error_cls (hgood seg (List.mem_cons_self _ _)) h0
      cases hc : e0.cls with
      | keyError => exact ⟨.str seg, Or.inl rfl⟩
      | indexError => exact ⟨.str seg, Or.inr rfl⟩
      | typeError => exact ⟨.str seg, Or.inl rfl⟩
      | valueError => exact absurd hc hV
      | attributeError => exact absurd hc hA
    · rename_i p1 k1 h1
      split at h
      · rename_i e1 hg1
        injection h with h
        subst h
        rcases getItem_error_cls hg1 with hc | hc | hc
        · exact ⟨k1, Or.inl (by rw [hc])⟩
        · exact ⟨k1, Or.inr (by rw [hc])⟩
        · exact ⟨k1, Or.inl (by rw [hc])⟩
      · exact ih (fun s hs => hgood s (List.mem_cons_of_mem _ hs)) h

theorem split_indexes_ok_good {seg : Str} {l : List PKey}
    (h : split_indexes seg = .ok l) :
    ∀ p ∈ (pySplitCh '[' seg).tail, (pyInt p.dropLast).isSome := by
  rcases hs : pySplitCh '[' seg with _ | ⟨key, pieces⟩
  · exact absurd hs (pySplitCh_ne_nil _ _)
  · intro p hp
    rw [List.tail_cons] at hp
    exact split_indexes_ok_tail hs h p hp

/-! ## The claims -/

/-- Claim C9 (confirmed): read-after-write round trip — whenever
`Cut.__setitem__` succeeds, an immediately following `Cut.__getitem__` of the
same path on the updated root returns the value just written. -/
theorem claim9_round_trip (root : PyVal) (path : Str) (sep : Char)
    (x root' : PyVal) (h : Cut_setitem root path sep x = .ok root') :
    Cut_getitem root' path sep = .ok x := by
  unfold Cut_setitem at h
  split at h
  · simp at h
  · split at h
    · simp at h
    · obtain ⟨item, h1, h2⟩ := traverseSet_get h
      simp_all [Cut_getitem]

/-- Witness for C9 at a concrete input: writing `5` at path `a` into the
empty dictionary succeeds, and reading `a` back returns `5`. -/
theorem claim9_witness :
    Cut_setitem (.dict []) "a".toList '.' (.int 5) =
      .ok (.dict [(.str "a".toList, .int 5)]) ∧
    Cut_getitem (.dict [(.str "a".toList, .int 5)]) "a".toList '.' =
      .ok (.int 5) :=
  ⟨rfl, claim9_round_trip (.dict []) _ _ _ _ rfl⟩

/-- Claim C3 counterexample: the claim says `parse` fails with
`MalformedPath` on the negative literal `a[-1]`; in fact Python's `int`
accepts `"-1"`, so `split_path` succeeds and produces `Index(-1)`. -/
theorem claim3_counterexample :
    split_path "a[-1]".toList '.' = .ok [.str "a".toList, .int (-1)] := rfl

/-- Claim C3 (corrected): a bracketed literal rejected by Python's `int`
(such as `x`) fails with `MalformedPath`, but a negative literal is a valid
integer: `a[-1]` parses to `[Key a, Index (-1)]` and the resulting negative
index is resolved by the navigator with Python's wrap-around indexing. -/
theorem claim3_amended :
    split_path "a[-1]".toList '.' = .ok [.str "a".toList, .int (-1)] ∧
    Cut_getitem (.dict [(.str "a".toList, .list [.int 1, .int 2])])
      "a[-1]".toList '.' = .ok (.int 2) ∧
    split_path "a[x]".toList '.' =
      .error (.indexMustBeInteger "x".toList "a[x]".toList) :=
  ⟨rfl, rfl, rfl⟩

/-- Claim C4 (confirmed): `split_indexes` implements exactly the documented
failure policy (`split_indexes_spec`): the first bracket piece whose integer
parse fails determines the error — `IndexMustBeInteger` when its stripped
body is non-empty and free of `']'`, `MissingBrackets` otherwise — and a bad
index is never silently skipped; concretely, `a[x]` is a non-integer index,
while `a[0` and `a[]` are missing-bracket failures. -/
theorem claim4_failure_policy :
    (∀ seg : Str, split_indexes seg = split_indexes_spec seg) ∧
    split_path "a[x]".toList '.' =
      .error (.indexMustBeInteger "x".toList "a[x]".toList) ∧
    split_path "a[0".toList '.' = .error (.missingBrackets "a[0".toList) ∧
    split_path "a[]".toList '.' = .error (.missingBrackets "a[]".toList) := by
  refine ⟨?_, rfl, rfl, rfl⟩
  intro seg
  unfold split_indexes split_indexes_spec
  cases hs : pySplitCh '[' seg with
  | nil => rfl
  | cons key pieces =>
    cases pieces with
    | nil => rfl
    | cons p ps =>
      simp only
      rw [siLoop_find]
      cases hf : List.find? (fun p => (pyInt p.dropLast).isNone) (p :: ps) with
      | none => simp [hf]
      | some q =>
        simp [hf]
        by_cases hq : ¬List.dropLast q = [] ∧ ']' ∉ List.dropLast q
        · rw [if_pos hq]
        · rw [if_neg hq]

/-- Claim C7 counterexample: with the falsy default `0`, `Cut.get` on a
missing key returns `0` rather than re-raising — the source tests
`default is not None`, not the default's truthiness. -/
theorem claim7_counterexample :
    Cut_get (.dict []) "a".toList '.' (.int 0) = .ok (.int 0) := rfl

/-- Claim C7 (corrected): `get` and `pop` treat only `None` as "no default":
on a `KeyError`/`IndexError`-class failure any non-`None` default — falsy
ones such as `0`, `""`, `False` included — is returned, and only a `None`
default re-raises. -/
theorem claim7_amended :
    (∀ (root : PyVal) (path : Str) (sep : Char) (d : PyVal) (e : PyErr),
      Cut_getitem root path sep = .error e →
      (e.cls = .keyError ∨ e.cls = .indexError) → d ≠ .none →
      Cut_get root path sep d = .ok d) ∧
    (∀ (root : PyVal) (path : Str) (sep : Char) (e : PyErr),
      Cut_getitem root path sep = .error e →
      Cut_get root path sep .none = .error e) ∧
    (∀ (root : PyVal) (path : Str) (sep : Char) (d : PyVal) (e : PyErr),
      Cut_traverse root path sep = .error e →
      (e.cls = .keyError ∨ e.cls = .indexError) → d ≠ .none →
      Cut_pop root path sep d = .ok d) := by
  refine ⟨?_, ?_, ?_⟩
  · intro root path sep d e h hcls hd
    simp only [Cut_get, h]
    rcases hcls with hc | hc <;> rw [hc] <;> cases d <;>
      first
        | rfl
        | exact absurd rfl hd
  · intro root path sep e h
    simp only [Cut_get, h]
    cases he : e.cls <;> rfl
  · intro root path sep d e h hcls hd
    simp only [Cut_pop, h]
    rcases hcls with hc | hc <;> rw [hc] <;> cases d <;>
      first
        | rfl
        | exact absurd rfl hd

/-- Witness for C7 at a concrete input: a missing key raises a wrapped
`KeyError`, and the falsy default `""` is returned by `get`. -/
theorem claim7_witness :
    Cut_getitem (.dict []) "a".toList '.' =
      .error (.wrappedKey (.str "a".toList) "a".toList) ∧
    Cut_get (.dict []) "a".toList '.' (.str []) = .ok (.str []) :=
  ⟨rfl, claim7_amended.1 _ _ _ _ _ rfl (Or.inl rfl) (by intro hx; cases hx)⟩

/-- Claim C8 (confirmed): a path without `'['` parses to one `Key` step per
separator-delimited segment, carrying the segment verbatim; and
`a[0][1]` parses to `[Key a, Index 0, Index 1]`, appending the index steps
right after their segment's key step. -/
theorem claim8_parse :
    (∀ (path : Str) (sep : Char), (∀ c ∈ path, c ≠ '[') →
      split_path path sep = .ok ((pySplitCh sep path).map PKey.str)) ∧
    split_path "a[0][1]".toList '.' =
      .ok [.str "a".toList, .int 0, .int 1] := by
  refine ⟨?_, rfl⟩
  intro path sep hno
  unfold split_path
  exact spLoop_no_bracket (fun seg hseg hc =>
    hno '[' (mem_of_mem_pySplitCh sep '[' path seg hseg hc) rfl)

/-- Witness for C8 at a concrete input: `a.b` has no bracket and parses to
its two key steps. -/
theorem claim8_witness :
    split_path "a.b".toList '.' = .ok [.str "a".toList, .str "b".toList] :=
  claim8_parse.1 "a.b".toList '.' (by decide)

theorem pyListGet?_eq (xs : List PyVal) (i : Int) :
    pyListGet? xs i =
      if -(xs.length : Int) ≤ i ∧ i < (xs.length : Int) then
        xs[(pyNorm xs.length i).toNat]?
      else Option.none := by
  unfold pyListGet? pyNorm
  by_cases hneg : i < 0
  · simp only [if_pos hneg]
    by_cases h0 : (0 : Int) ≤ i + xs.length
    · rw [if_pos h0, if_pos ⟨by omega, by omega⟩]
    · rw [if_neg h0, if_neg (by omega)]
  · simp only [if_neg hneg]
    have h0 : (0 : Int) ≤ i := by omega
    rw [if_pos h0]
    by_cases hlt : i < (xs.length : Int)
    · rw [if_pos ⟨by omega, hlt⟩]
    · rw [if_neg (by omega), List.getElem?_eq_none (by omega)]

theorem pyStrGet?_eq (s : Str) (i : Int) :
    pyStrGet? s i =
      if -(s.length : Int) ≤ i ∧ i < (s.length : Int) then
        s[(pyNorm s.length i).toNat]?
      else Option.none := by
  unfold pyStrGet? pyNorm
  by_cases hneg : i < 0
  · simp only [if_pos hneg]
    by_cases h0 : (0 : Int) ≤ i + s.length
    · rw [if_pos h0, if_pos ⟨by omega, by omega⟩]
    · rw [if_neg h0, if_neg (by omega)]
  · simp only [if_neg hneg]
    have h0 : (0 : Int) ≤ i := by omega
    rw [if_pos h0]
    by_cases hlt : i < (s.length : Int)
    · rw [if_pos ⟨by omega, hlt⟩]
    · rw [if_neg (by omega), List.getElem?_eq_none (by omega)]

/-- Claim C1 counterexample: on `root = {"pokemon": [{"level": 1}]}`,
resolving `pokemon[5].level` through `Cut.__getitem__` raises the *bare*
`IndexError` of the list access — carrying neither the offending index `5`
nor the original path — because `traverse` only converts `TypeError`s and
lets intermediate `KeyError`/`IndexError` propagate unwrapped. -/
theorem claim1_counterexample :
    Cut_getitem
      (.dict [(.str "pokemon".toList,
        .list [.dict [(.str "level".toList, .int 1)]])])
      "pokemon[5].level".toList '.' = .error .indexErrorRaw := rfl

/-- Claim C1 (corrected): attribution is positional, not universal.
Wrapped with the offending key and the original full path are: failures at
the final step of `__getitem__` (first, general conjunct); `KeyError` /
`IndexError` raised by the final `del` / `.pop` access of `__delitem__` and
`pop` (second and third, general conjuncts); and — for parseable segments —
every failure of `_traverse`'s intermediate segment loop, which the
`_traverse`-based operations use (fourth, general conjunct), so on
`root = {"pokemon": [{"level": 1}]}` both `__delitem__` and `pop` of
`pokemon[5].level` raise an `IndexOutOfRange` naming index `5` and the full
path (sixth and seventh conjuncts).  Bare, unattributed failures remain: an
intermediate `KeyError`/`IndexError` inside `__getitem__`'s `traverse` walk
propagates unwrapped — on the same root, `__getitem__` of `pokemon[5].level`
raises the bare `IndexError` (fifth conjunct) — and a failure at an
inner-index position of a bracketed segment escapes `_traverse_list`'s loop
(which catches only `IndexError`) unwrapped even for `pop` / `__delitem__`:
on `root = {"a": {}}` the path `a[0][1]` raises the bare `KeyError(0)`
(eighth conjunct). -/
theorem claim1_amended :
    (∀ (root : PyVal) (path : Str) (sep : Char) (l keys : List PKey)
        (last : PKey) (item : PyVal) (e : PyErr),
      split_path path sep = .ok l → initLast l = some (keys, last) →
      traverse root keys path = .ok item → getItem item last = .error e →
      (e.cls = .keyError →
        Cut_getitem root path sep = .error (.wrappedKey last path)) ∧
      (e.cls = .indexError →
        Cut_getitem root path sep = .error (.wrappedIndex last path))) ∧
    (∀ (root : PyVal) (path : Str) (sep : Char) (p : PyVal) (l : PKey)
        (e : PyErr),
      Cut_traverse root path sep = .ok (p, l) → delAccess p l = .error e →
      (e.cls = .keyError →
        Cut_delitem root path sep = .error (.wrappedKey l path)) ∧
      (e.cls = .indexError →
        Cut_delitem root path sep = .error (.wrappedIndex l path))) ∧
    (∀ (root : PyVal) (path : Str) (sep : Char) (p : PyVal) (l : PKey)
        (e : PyErr),
      Cut_traverse root path sep = .ok (p, l) → popAccess p l = .error e →
      (e.cls = .keyError →
        Cut_pop root path sep .none = .error (.wrappedKey l path)) ∧
      (e.cls = .indexError →
        Cut_pop root path sep .none = .error (.wrappedIndex l path))) ∧
    (∀ (segs : List Str) (parent : PyVal) (path : Str) (e : PyErr),
      (∀ seg ∈ segs, ∃ l, split_indexes seg = .ok l) →
      traverseLoop parent segs path = .error e →
      ∃ k, e = .wrappedKey k path ∨ e = .wrappedIndex k path) ∧
    Cut_getitem
      (.dict [(.str "pokemon".toList,
        .list [.dict [(.str "level".toList, .int 1)]])])
      "pokemon[5].level".toList '.' = .error .indexErrorRaw ∧
    Cut_delitem
      (.dict [(.str "pokemon".toList,
        .list [.dict [(.str "level".toList, .int 1)]])])
      "pokemon[5].level".toList '.' =
      .error (.wrappedIndex (.int 5) "pokemon[5].level".toList) ∧
    Cut_pop
      (.dict [(.str "pokemon".toList,
        .list [.dict [(.str "level".toList, .int 1)]])])
      "pokemon[5].level".toList '.' .none =
      .error (.wrappedIndex (.int 5) "pokemon[5].level".toList) ∧
    (Cut_pop (.dict [(.str "a".toList, .dict [])]) "a[0][1]".toList '.'
      .none = .error (.keyErrorRaw (.int 0)) ∧
    Cut_delitem (.dict [(.str "a".toList, .dict [])]) "a[0][1]".toList '.' =
      .error (.keyErrorRaw (.int 0))) := by
  refine ⟨?_, ?_, ?_, ?_, rfl, rfl, rfl, rfl, rfl⟩
  · intro root path sep l keys last item e hp hil ht hg
    constructor <;> intro hc <;> simp only [Cut_getitem, hp, hil, ht, hg, hc]
  · intro root path sep p l e ht hd
    constructor <;> intro hc <;> simp only [Cut_delitem, ht, hd, hc]
  · intro root path sep p l e ht hd
    constructor <;> intro hc <;> simp only [Cut_pop, ht, hd, hc]
  · intro segs parent path e hok h
    refine traverseLoop_error_wrapped ?_ h
    intro seg hs
    obtain ⟨l, hl⟩ := hok seg hs
    exact split_indexes_ok_good hl

/-- Witness for C1's general conjunct at a concrete input: the final step of
`a.b` on `{"a": {}}` fails with a `KeyError` that `__getitem__` wraps with
the key and the full path. -/
theorem claim1_witness :
    Cut_getitem (.dict [(.str "a".toList, .dict [])]) "a.b".toList '.' =
      .error (.wrappedKey (.str "b".toList) "a.b".toList) :=
  (claim1_amended.1 (.dict [(.str "a".toList, .dict [])]) "a.b".toList '.'
    [.str "a".toList, .str "b".toList] [.str "a".toList] (.str "b".toList)
    (.dict []) (.keyErrorRaw (.str "b".toList)) rfl rfl rfl rfl).1 rfl

/-- Claim C2 counterexample: an `Index` step against a keyed container does
not fail with `TypeMismatch` as claimed — Python subscripts the dictionary
with the integer and raises `KeyError`, so resolving `a[0]` on
`{"a": {"b": 1}}` is a `MissingKey`-class failure. -/
theorem claim2_counterexample :
    Cut_getitem (.dict [(.str "a".toList, .dict [(.str "b".toList, .int 1)])])
      "a[0]".toList '.' = .error (.wrappedKey (.int 0) "a[0]".toList) ∧
    PyErr.cls (.wrappedKey (.int 0) "a[0]".toList) ≠ .typeError :=
  ⟨rfl, by decide⟩

/-- Claim C2 (corrected): the uniform step rule, amended in three points —
an `Index` step against a keyed container is a dictionary lookup of the
integer key (`MissingKey` when absent, not `TypeMismatch`); the valid range
of an `Index` step against an ordered container is `-len ≤ i < len`
(Python's negative wrap), with `IndexOutOfRange` outside it; and a string
leaf is itself index-addressable, so an `Index` step against it yields the
one-character string under the same range rule rather than `TypeMismatch`.
`Key` steps against keyed containers, and `TypeMismatch` for a key against a
list or string and for any step on another scalar, are as originally
claimed, as are the `a.c` (MissingKey naming `c`) and integer-scalar `a[0]`
(TypeMismatch) examples. -/
theorem claim2_amended :
    (∀ (v : PyVal) (k : PKey), outcomeOf (getItem v k) = stepRule v k) ∧
    Cut_getitem (.dict [(.str "a".toList, .dict [(.str "b".toList, .int 1)])])
      "a.c".toList '.' = .error (.wrappedKey (.str "c".toList) "a.c".toList) ∧
    Cut_getitem (.dict [(.str "a".toList, .int 1)]) "a[0]".toList '.' =
      .error .typeErrorRaw := by
  refine ⟨?_, rfl, rfl⟩
  intro v k
  cases v with
  | dict es =>
    cases hl : lookupD es k <;>
      simp [getItem, outcomeOf, stepRule, hl, PyErr.cls]
  | list xs =>
    cases k with
    | str s => simp [getItem, outcomeOf, stepRule, PyErr.cls]
    | int i =>
      simp only [getItem, stepRule, pyListGet?_eq]
      by_cases hcond : -(xs.length : Int) ≤ i ∧ i < (xs.length : Int)
      · rw [if_pos hcond, if_pos hcond]
        cases hx : xs[(pyNorm xs.length i).toNat]? <;>
          simp [outcomeOf, PyErr.cls]
      · rw [if_neg hcond, if_neg hcond]
        simp [outcomeOf, PyErr.cls]
  | int i => simp [getItem, outcomeOf, stepRule, PyErr.cls]
  | str s =>
    cases k with
    | str s2 => simp [getItem, outcomeOf, stepRule, PyErr.cls]
    | int i =>
      simp only [getItem, stepRule, pyStrGet?_eq]
      by_cases hcond : -(s.length : Int) ≤ i ∧ i < (s.length : Int)
      · rw [if_pos hcond, if_pos hcond]
        cases hx : s[(pyNorm s.length i).toNat]? <;>
          simp [outcomeOf, PyErr.cls]
      · rw [if_neg hcond, if_neg hcond]
        simp [outcomeOf, PyErr.cls]
  | bool b => simp [getItem, outcomeOf, stepRule, PyErr.cls]
  | none => simp [getItem, outcomeOf, stepRule, PyErr.cls]

/-- Claim C5 counterexample: `Cut.pop` on the malformed path `a[x]` does not
fail with a parser `MalformedPath` (`ValueError`): `_traverse_list` converts
the failing `int("x")` into an `index_error` — an `IndexOutOfRange`-class
failure naming the body `x`. -/
theorem claim5_counterexample :
    Cut_pop (.dict [(.str "a".toList, .list [.int 1, .int 2])])
      "a[x]".toList '.' .none =
      .error (.wrappedIndex (.str "x".toList) "a[x]".toList) ∧
    PyErr.cls (.wrappedIndex (.str "x".toList) "a[x]".toList) ≠ .valueError :=
  ⟨rfl, by decide⟩

/-- Claim C5 (corrected): the operations that parse with `split_path`
(`__getitem__`, `__setitem__`) surface a malformed path as the parser's
`MalformedPath` (`ValueError`-class) failure, unchanged, before any
navigation; but the parent-resolving operations (`delete`, `pop`,
containment, `setdefault`) parse brackets inside `_traverse_list`, which
converts a non-integer final index literal into an `IndexOutOfRange`-kind
wrapped failure, as `__delitem__` on `a[x]` shows. -/
theorem claim5_amended :
    (∀ (root : PyVal) (path : Str) (sep : Char) (e : PyErr),
      split_path path sep = .error e →
      Cut_getitem root path sep = .error e ∧ e.cls = .valueError) ∧
    (∀ (root : PyVal) (path : Str) (sep : Char) (x : PyVal) (e : PyErr),
      split_path path sep = .error e →
      Cut_setitem root path sep x = .error e) ∧
    Cut_delitem (.dict [(.str "a".toList, .list [.int 1, .int 2])])
      "a[x]".toList '.' =
      .error (.wrappedIndex (.str "x".toList) "a[x]".toList) := by
  refine ⟨?_, ?_, rfl⟩
  · intro root path sep e h
    exact ⟨by simp only [Cut_getitem, h], split_path_error_cls h⟩
  · intro root path sep x e h
    simp only [Cut_setitem, h]

/-- Witness for C5 at a concrete input: `__getitem__` on the unbalanced
`a[0` fails with the parser's missing-brackets `ValueError`. -/
theorem claim5_witness :
    Cut_getitem (.dict []) "a[0".toList '.' =
      .error (.missingBrackets "a[0".toList) ∧
    PyErr.cls (.missingBrackets "a[0".toList) = .valueError :=
  claim5_amended.1 (.dict []) "a[0".toList '.'
    (.missingBrackets "a[0".toList) rfl

/-- Claim C6 counterexample: on `root = {}`, `setdefault("a[0].b")` does not
auto-create at the missing intermediate `Key` step `a` — because `a` heads a
bracketed segment, `_traverse_list` looks it up before the creating
`try/except` and raises a wrapped `MissingKey` hard failure. -/
theorem claim6_counterexample :
    Cut_setdefault (.dict []) "a[0].b".toList '.' (.int 7) =
      .error (.wrappedKey (.str "a".toList) "a[0].b".toList) := rfl

/-- Claim C6 (corrected): `setdefault` on `root = {}` with `a.b.c` creates
empty keyed containers at `a` and `a.b` and stores the default at `c`
(first conjunct, for every default); the auto-create-and-descend behaviour
holds for a missing *plain* (unbracketed) intermediate key (second,
general conjunct), while a missing key heading a bracketed segment is a hard
failure (the counterexample) and `IndexOutOfRange` on an intermediate index
step is a hard failure — ordered containers are never auto-extended (third
conjunct). -/
theorem claim6_amended :
    (∀ d : PyVal, Cut_setdefault (.dict []) "a.b.c".toList '.' d =
      .ok (d, .dict [(.str "a".toList, .dict [(.str "b".toList,
        .dict [(.str "c".toList, d)])])])) ∧
    (∀ (es : List (PKey × PyVal)) (k : Str) (rest : List Str) (last : Str)
        (d : PyVal) (path : Str),
      pySplitCh '[' k = [k] → lookupD es (.str k) = Option.none →
      setdefaultLoop (.dict es) (k :: rest) last d path =
        match setdefaultLoop (.dict []) rest last d path with
        | .ok (res, child') => .ok (res, .dict (setD es (.str k) child'))
        | .error e => .error e) ∧
    (∀ d : PyVal, Cut_setdefault (.dict [(.str "a".toList, .list [])])
      "a[0].b".toList '.' d =
      .error (.wrappedIndex (.int 0) "a[0].b".toList)) := by
  refine ⟨fun d => rfl, ?_, fun d => rfl⟩
  intro es k rest last d path hk hl
  simp only [setdefaultLoop, traverse_listW, hk, initLast, getItem, hl,
    PyErr.cls, setItem]
  cases setdefaultLoop (.dict []) rest last d path with
  | ok p => obtain ⟨res, child'⟩ := p; rfl
  | error e => rfl

/-- Witness for C6's general conjunct at a concrete input: the plain segment
`a`, absent from the empty dictionary, auto-creates and descends. -/
theorem claim6_witness :
    setdefaultLoop (.dict []) ["a".toList] "b".toList (.int 1)
      "a.b".toList =
      match setdefaultLoop (.dict []) [] "b".toList (.int 1) "a.b".toList with
      | .ok (res, child') => .ok (res, .dict (setD [] (.str "a".toList) child'))
      | .error e => .error e :=
  claim6_amended.2.1 [] "a".toList [] "b".toList (.int 1) "a.b".toList rfl rfl

/-- Claim C10 (confirmed): `__contains__` answers `False` only when the
parent resolution (`_traverse`, i.e. every step before the final one)
succeeded and the final read failed with a `KeyError`/`IndexError`-class
failure (first conjunct); any failure during parent resolution propagates
out of `__contains__` unchanged instead of yielding `False` (second
conjunct); and for well-formed segments, a failure in the intermediate
segment loop — absence, out-of-range or wrong container kind — is always a
wrapped error carrying the original full path (third conjunct). -/
theorem claim10_contains :
    (∀ (root : PyVal) (path : Str) (sep : Char),
      Cut_contains root path sep = .ok false →
      ∃ p l e, Cut_traverse root path sep = .ok (p, l) ∧
        getItem p l = .error e ∧
        (e.cls = .keyError ∨ e.cls = .indexError)) ∧
    (∀ (root : PyVal) (path : Str) (sep : Char) (e : PyErr),
      Cut_traverse root path sep = .error e →
      Cut_contains root path sep = .error e) ∧
    (∀ (segs : List Str) (parent : PyVal) (path : Str) (e : PyErr),
      (∀ seg ∈ segs, ∃ l, split_indexes seg = .ok l) →
      traverseLoop parent segs path = .error e →
      ∃ k, e = .wrappedKey k path ∨ e = .wrappedIndex k path) := by
  refine ⟨?_, ?_, ?_⟩
  · intro root path sep h
    unfold Cut_contains at h
    split at h
    · simp at h
    · rename_i p l ht
      split at h
      · simp at h
      · rename_i e hg
        split at h
        · rename_i hc
          exact ⟨p, l, e, ht, hg, Or.inl hc⟩
        · rename_i hc
          exact ⟨p, l, e, ht, hg, Or.inr hc⟩
        · simp at h
  · intro root path sep e h
    simp only [Cut_contains, h]
  · intro segs parent path e hok h
    refine traverseLoop_error_wrapped ?_ h
    intro seg hs
    obtain ⟨l, hl⟩ := hok seg hs
    exact split_indexes_ok_good hl

/-- Witness for C10 at a concrete input: `"a.c" in Cut({"a": {"b": 1}})` is
`False`, so the theorem yields the successful parent resolution and the
`KeyError`-class final failure. -/
theorem claim10_witness :
    ∃ p l e,
      Cut_traverse
        (.dict [(.str "a".toList, .dict [(.str "b".toList, .int 1)])])
        "a.c".toList '.' = .ok (p, l) ∧
      getItem p l = .error e ∧ (e.cls = .keyError ∨ e.cls = .indexError) :=
  claim10_contains.1 _ _ _ rfl
